import Mathlib

/-!
Verification of the ECM performance model core (kerncraft, models/ecm.py).

The development shallowly embeds the parts of the code that the verified
properties talk about:

* `buildRecords`, `levelCycles` — the cache-traffic report construction and
  per-boundary cycle derivation (`ECMData.calculate_cache_access`,
  `ECMData.calculate_cycles`);
* `usesFullWarmup`, `alignedWarmup`, `benchFirstOffset` — the warm-up
  calibration of the cache simulation (`ECMData.calculate_cache_access`);
* `portCellEntries`, `parseBlockThroughput` — the analyzer-output parsing
  (`ECMCPU.analyze`);
* `computeT` — the derivation of the overlapping / non-overlapping cycle
  costs T_OL and T_nOL (`ECMCPU.analyze`);
* `totalCycles`, `scalingCores` — the combination of both analyses
  (`ECM.analyze`, `ECM.report`);
* `ECMData_conv_cy`, `ECMCPU_conv_cy` — the two unit-conversion routines.

Python floats are modelled as rationals, Python ints as `Int` or `Nat`,
Python strings as `String` processed through their character lists, and
calls that can raise as `Option` / `Except` values.
-/

/-- Python's `max` on a list (`max(xs)`); the source only applies it to
non-empty lists (Python raises on `[]`, the `0` default is junk). -/
def pyMax {α : Type} [LinearOrder α] [Zero α] : List α → α
  | [] => 0
  | h :: t => t.foldl max h

/-- Python's `str.split(sep)` for a one-character separator: splits at every
occurrence of the separator and keeps empty pieces. -/
def splitOnChar (sep : Char) : List Char → List (List Char)
  | [] => [[]]
  | c :: rest =>
    let r := splitOnChar sep rest
    if c = sep then [] :: r
    else
      match r with
      | g :: gs => (c :: g) :: gs
      | [] => [[c]]

/-- Python's `str.strip()`: drop whitespace from both ends. -/
def trimChars (l : List Char) : List Char :=
  ((l.dropWhile Char.isWhitespace).reverse.dropWhile Char.isWhitespace).reverse

/-- Value of a string of decimal digits (helper for `parseDecimal`). -/
def digitsToNat (l : List Char) : ℕ :=
  l.foldl (fun acc c => 10 * acc + (c.toNat - '0'.toNat)) 0

/-- Python's `float(s)` restricted to plain decimal literals such as `"2.0"`,
which is the shape the analyzer's table cells have; the value is kept exact
as a rational. -/
def parseDecimal (s : List Char) : ℚ :=
  match splitOnChar '.' s with
  | [w] => digitsToNat w
  | [w, f] => (digitsToNat w : ℚ) + (digitsToNat f : ℚ) / (10 ^ f.length)
  | _ => 0

/-- Port-table cell parsing from `ECMCPU.analyze` (ecm.py lines 351-360):
one `(port, cycles)` cell pair of the analyzer's table is turned into port
entries.  A hyphenated port cell whose cycles cell contains a space is split
into two sub-ports; the first sub-port gets the first space-separated cycles
value and the concatenation of both sub-port labels gets the second one.
The numeric conversion `float(...)` is passed in as `pf`. -/
def portCellEntries (port cyc : String) (pf : List Char → ℚ) : List (String × ℚ) :=
  let pd := port.data
  let cd := cyc.data
  if pd.contains '-' && cd.contains ' ' then
    let subports := (splitOnChar '-' pd).map trimChars
    let subcycles := (splitOnChar ' ' cd).filter (fun c => c ≠ [])
    [(String.mk (subports.getD 0 []), pf (subcycles.getD 0 [])),
     (String.mk (subports.getD 0 [] ++ subports.getD 1 []), pf (subcycles.getD 1 []))]
  else if !pd.isEmpty && !cd.isEmpty then
    [(port, pf cd)]
  else []

/-- Model of the multi-line regular-expression search for the pattern
`Block Throughput: ([0-9\.]+) Cycles` anchored at a line start
(ecm.py lines 340-341), applied to one line: the line must start with the
literal header, then a non-empty run of digits and dots (the capture),
immediately followed by " Cycles". -/
def throughputCapture (l : String) : Option (List Char) :=
  let d := l.data
  let pre := "Block Throughput: ".data
  if pre.isPrefixOf d then
    let rest := d.drop pre.length
    let num := rest.takeWhile (fun c => c.isDigit || c = '.')
    if !num.isEmpty && " Cycles".data.isPrefixOf (rest.drop num.length) then
      some num
    else none
  else none

/-- Parsing the block throughput out of the analyzer's throughput-mode
output, given as its list of lines (ecm.py lines 339-343).  The source
raises an `AssertionError` with the quoted message when the pattern is
absent; this is modelled as `Except.error`. -/
def parseBlockThroughput (out : List String) : Except String ℚ :=
  match out.findSome? throughputCapture with
  | some num => Except.ok (parseDecimal num)
  | none => Except.error "Could not find Block Throughput in IACA output."

/-- Cycle values of the ports that belong to the given port set:
`[v for k, v in port_cycles.items() if k in s]` (ecm.py lines 395-398). -/
def portVals (pc : List (String × ℚ)) (s : List String) : List ℚ :=
  (pc.filter (fun kv => s.contains kv.1)).map Prod.snd

/-- Derivation of `(T_nOL, T_OL)` from the per-port cycle table
(`ECMCPU.analyze`, ecm.py lines 394-406): both start as the Python `max`
over the machine's port sets; `T_OL` is then overwritten by the normalized
block throughput when `T_nOL < cl_throughput`, and finally overwritten by
the normalized latency when the latency option is set. -/
def computeT (pc : List (String × ℚ)) (ov nov : List String)
    (clThroughput clLatency : ℚ) (latencyFlag : Bool) : ℚ × ℚ :=
  let T_OL0 := pyMax (portVals pc ov)
  let T_nOL := pyMax (portVals pc nov)
  let T_OL1 := if T_nOL < clThroughput then clThroughput else T_OL0
  let T_OL2 := if latencyFlag then clLatency else T_OL1
  (T_nOL, T_OL2)

/-- Per-level statistics returned by the cache simulator (`csim.stats()`). -/
structure LevelStats where
  MISS_byte : ℕ
  HIT_byte : ℕ
  STORE_byte : ℕ
  MISS_count : ℕ
  HIT_count : ℕ
  STORE_count : ℕ
deriving DecidableEq

/-- All-zero statistics record, used as the out-of-range default (the Python
source would raise `IndexError` there instead). -/
def zeroStats : LevelStats := ⟨0, 0, 0, 0, 0, 0⟩

/-- One per-boundary record of the cache-traffic report
(the memory-hierarchy entries of `self.results`, ecm.py lines 169-179). -/
structure CacheRecord where
  index : ℕ
  level : String
  totalMisses : ℕ
  totalHits : ℕ
  totalEvicts : ℕ
  totalLinesMisses : ℕ
  totalLinesHits : ℕ
  totalLinesEvicts : ℕ
  cycles : Option ℚ
deriving DecidableEq

/-- Construction of the cache-traffic report from the simulator statistics
(`ECMData.calculate_cache_access`, ecm.py lines 166-179): one record per
hierarchy level except the last (`list(enumerate(...))[:-1]`); the eviction
line count of level `i` is read from the store line count of level `i+1`. -/
def buildRecords (hierarchy : List String) (stats : List LevelStats) : List CacheRecord :=
  (hierarchy.enum.dropLast).map fun p =>
    { index := p.1
      level := p.2
      totalMisses := (stats.getD p.1 zeroStats).MISS_byte
      totalHits := (stats.getD p.1 zeroStats).HIT_byte
      totalEvicts := (stats.getD p.1 zeroStats).STORE_byte
      totalLinesMisses := (stats.getD p.1 zeroStats).MISS_count
      totalLinesHits := (stats.getD p.1 zeroStats).HIT_count
      totalLinesEvicts := (stats.getD (p.1 + 1) zeroStats).STORE_count
      cycles := none }

/-- Description of one memory-hierarchy level as far as the cycle derivation
needs it: `cycles per cacheline transfer` (`none` means derive from
bandwidth) and the optional `penalty cycles per read stream` entry. -/
structure HierLevelInfo where
  level : String
  cyclesPerCL : Option ℚ
  penaltyPerReadStream : Option ℚ

/-- Cycle cost of one boundary (`ECMData.calculate_cycles`, ecm.py lines
185-223).  Returns the derived cycle count together with the bandwidth value
recorded in the result (`none` when the fixed-cost path is taken, in which
case no bandwidth lookup happens).  `bw level read write threads` models
`machine.get_bandwidth`. -/
def levelCycles (elementSize clock epc : ℚ) (bw : ℕ → ℕ → ℕ → ℕ → ℚ)
    (cacheLevel : ℕ) (info : HierLevelInfo) (r : CacheRecord) : ℚ × Option ℚ :=
  match info.cyclesPerCL with
  | some cc => (((r.totalLinesMisses : ℚ) + (r.totalLinesEvicts : ℚ)) * cc, none)
  | none =>
    let b := bw (cacheLevel + 1) r.totalLinesMisses r.totalLinesEvicts 1
    let base := ((r.totalLinesMisses : ℚ) + (r.totalLinesEvicts : ℚ)) * epc * elementSize
      * clock / b
    let cyc :=
      match info.penaltyPerReadStream with
      | some p => base + (r.totalLinesMisses : ℚ) * p
      | none => base
    (cyc, some b)

/-- Guard of the full warm-up pass (`ECMData.calculate_cache_access`,
ecm.py lines 93-101): the entire iteration space is prepended to the warm-up
stream exactly when `max(array sizes) < max(cache sizes)`. -/
def usesFullWarmup (arraySizes cacheSizes : List ℕ) : Bool :=
  pyMax arraySizes < pyMax cacheSizes

/-- Address (byte offset) of the chosen write-preferred access stream at a
given iteration, for a kernel whose accesses advance by one element per
iteration (the linearity assumption stated in ecm.py lines 119-120). -/
def firstOffset (base es i : ℤ) : ℤ := base + i * es

/-- The source expression `int(x) >> cl_bits << cl_bits` (ecm.py line 130):
start of the cacheline enclosing byte offset `x`. -/
def clFloor (x : ℤ) (b : ℕ) : ℤ := ((x.toNat >>> b) <<< b : ℕ)

/-- Distance of the warm-up iteration's first byte offset from its enclosing
cacheline start (`diff`, ecm.py lines 129-130). -/
def alignDiff (base es w : ℤ) (b : ℕ) : ℤ :=
  firstOffset base es w - clFloor (firstOffset base es w) b

/-- Cacheline re-alignment of the warm-up iteration count
(`warmup_iteration_count -= diff//element_size`, ecm.py line 132);
Python's floor division is `Int.fdiv`. -/
def alignedWarmup (base es w : ℤ) (b : ℕ) : ℤ :=
  w - (alignDiff base es w b).fdiv es

/-- Byte address of the first benchmarked iteration, which starts at the
re-aligned warm-up count (ecm.py line 148). -/
def benchFirstOffset (base es w : ℤ) (b : ℕ) : ℤ :=
  firstOffset base es (alignedWarmup base es w b)

/-- The combined report's cycle ladder: `[T_nOL]` followed by the
per-boundary cycle values (`ECM.report`, ecm.py line 529). -/
def cycleLadder (T_nOL : ℚ) (boundaryCycles : List ℚ) : List ℚ :=
  [T_nOL] ++ boundaryCycles

/-- Single-core total cycles reported by the combined model
(`total_cycles`, ecm.py lines 527-529). -/
def totalCycles (T_OL T_nOL : ℚ) (boundaryCycles : List ℚ) : ℚ :=
  max T_OL (cycleLadder T_nOL boundaryCycles).sum

/-- Multi-core scaling estimate (`ECM.analyze`, ecm.py lines 512-519):
`none` models the infinite float value (no saturation) and is returned when the last
boundary's cycle value is `0.0`; otherwise the saturation core count is
`int(math.ceil(max(T_OL, T_nOL + sum(cycles)) / cycles[-1]))`. -/
def scalingCores (T_OL T_nOL : ℚ) (boundaryCycles : List ℚ) : Option ℤ :=
  if boundaryCycles.getLastD 0 = 0 then none
  else some ⌈max T_OL (T_nOL + boundaryCycles.sum) / boundaryCycles.getLastD 0⌉

/-- Model of the `PrefixedUnit` values produced by the unit conversion:
an exact numeric value tagged with a unit string. -/
structure PrefixedUnit where
  value : ℚ
  unit : String
deriving DecidableEq

/-- Unit conversion of the data analysis (`ECMData.conv_cy`, ecm.py lines
243-264).  An empty unit string models the falsy argument replaced by the
default unit cy/CL; the final dictionary lookup is a `List.lookup`, so the
`KeyError` on an unknown unit becomes `none`. -/
def ECMData_conv_cy (clock : ℚ) (elementSize cachelineSize : ℕ) (flopsPerIt : ℚ)
    (cy_cl : ℚ) (unit : String) : Option PrefixedUnit :=
  let unit1 := if unit = "" then "cy/CL" else unit
  let epc : ℚ := (cachelineSize / elementSize : ℕ)
  let it_s : PrefixedUnit := ⟨clock / cy_cl * epc, "It/s"⟩
  let performance : PrefixedUnit := ⟨it_s.value * flopsPerIt, "FLOP/s"⟩
  let cy_it : PrefixedUnit := ⟨cy_cl * epc, "cy/It"⟩
  List.lookup unit1
    [("It/s", it_s), ("cy/CL", ⟨cy_cl, "cy/CL"⟩), ("cy/It", cy_it), ("FLOP/s", performance)]

/-- Unit conversion of the CPU analysis (`ECMCPU.conv_cy`, ecm.py lines
420-441), transcribed from its own source lines. -/
def ECMCPU_conv_cy (clock : ℚ) (elementSize cachelineSize : ℕ) (flopsPerIt : ℚ)
    (cy_cl : ℚ) (unit : String) : Option PrefixedUnit :=
  let unit1 := if unit = "" then "cy/CL" else unit
  let epc : ℚ := (cachelineSize / elementSize : ℕ)
  let it_s : PrefixedUnit := ⟨clock / cy_cl * epc, "It/s"⟩
  let performance : PrefixedUnit := ⟨it_s.value * flopsPerIt, "FLOP/s"⟩
  let cy_it : PrefixedUnit := ⟨cy_cl * epc, "cy/It"⟩
  List.lookup unit1
    [("It/s", it_s), ("cy/CL", ⟨cy_cl, "cy/CL"⟩), ("cy/It", cy_it), ("FLOP/s", performance)]

/-- Folding `max` never goes below the accumulator. -/
lemma le_foldl_max {α : Type} [LinearOrder α] (t : List α) (a : α) :
    a ≤ t.foldl max a := by
  induction t generalizing a with
  | nil => exact le_refl a
  | cons h t ih => exact le_trans (le_max_left a h) (ih (max a h))

/-- Folding `max` dominates every list element. -/
lemma le_foldl_max_of_mem {α : Type} [LinearOrder α] {x : α} {t : List α} (a : α)
    (hx : x ∈ t) : x ≤ t.foldl max a := by
  induction t generalizing a with
  | nil => cases hx
  | cons h t ih =>
    rcases List.mem_cons.mp hx with rfl | hx
    · exact le_trans (le_max_right a x) (le_foldl_max t (max a x))
    · exact ih (max a h) hx

/-- Folding `max` yields the accumulator or one of the list elements. -/
lemma foldl_max_cases {α : Type} [LinearOrder α] (t : List α) (a : α) :
    t.foldl max a = a ∨ t.foldl max a ∈ t := by
  induction t generalizing a with
  | nil => exact Or.inl rfl
  | cons h t ih =>
    rcases ih (max a h) with heq | hmem
    · rcases max_choice a h with hm | hm
      · exact Or.inl (by rw [List.foldl_cons, heq, hm])
      · exact Or.inr (by rw [List.foldl_cons, heq, hm]; exact List.mem_cons_self h t)
    · exact Or.inr (List.mem_cons_of_mem h hmem)

/-- `pyMax` dominates every element of the list. -/
lemma le_pyMax {α : Type} [LinearOrder α] [Zero α] {x : α} {l : List α} (hx : x ∈ l) :
    x ≤ pyMax l := by
  cases l with
  | nil => cases hx
  | cons h t =>
    rcases List.mem_cons.mp hx with rfl | hx
    · exact le_foldl_max t x
    · exact le_foldl_max_of_mem h hx

/-- On a non-empty list, `pyMax` is one of the elements. -/
lemma pyMax_mem {α : Type} [LinearOrder α] [Zero α] {l : List α} (h : l ≠ []) :
    pyMax l ∈ l := by
  cases l with
  | nil => exact absurd rfl h
  | cons a t =>
    show t.foldl max a ∈ a :: t
    rcases foldl_max_cases t a with heq | hmem
    · rw [heq]; exact List.mem_cons_self a t
    · exact List.mem_cons_of_mem a hmem

/-- On a non-empty list, `pyMax` is below a bound iff every element is. -/
lemma pyMax_lt_iff {α : Type} [LinearOrder α] [Zero α] {l : List α} (h : l ≠ []) (m : α) :
    pyMax l < m ↔ ∀ x ∈ l, x < m :=
  ⟨fun hlt _ hx => lt_of_le_of_lt (le_pyMax hx) hlt, fun hall => hall _ (pyMax_mem h)⟩

/-- C1: for a combined result whose cycle ladder is `[T_nOL]` followed by the
per-boundary cycle values, the reported single-core total cycles equal
`max(T_OL, T_nOL + sum of all boundary cycle values)`. -/
theorem totalCycles_eq_max_T_OL_T_nOL_add_sum (T_OL T_nOL : ℚ) (boundaryCycles : List ℚ) :
    totalCycles T_OL T_nOL boundaryCycles = max T_OL (T_nOL + boundaryCycles.sum) := by
  simp [totalCycles, cycleLadder]

/-- C2: if the last boundary's cycle value is zero the scaling-core count is
unbounded (modelled as `none`); otherwise it equals
`ceil(max(T_OL, T_nOL + sum of boundary cycles) / memory-boundary cycles)`
and, with non-negative `T_OL`, `T_nOL` and boundary cycles, is at least 1. -/
theorem scalingCores_spec (T_OL T_nOL : ℚ) (boundaryCycles : List ℚ)
    (h : boundaryCycles ≠ []) (_hOL : 0 ≤ T_OL) (_hnOL : 0 ≤ T_nOL)
    (hc : ∀ c ∈ boundaryCycles, 0 ≤ c) :
    (boundaryCycles.getLast h = 0 → scalingCores T_OL T_nOL boundaryCycles = none) ∧
    (boundaryCycles.getLast h ≠ 0 →
      scalingCores T_OL T_nOL boundaryCycles =
        some ⌈max T_OL (T_nOL + boundaryCycles.sum) / boundaryCycles.getLast h⌉ ∧
      1 ≤ ⌈max T_OL (T_nOL + boundaryCycles.sum) / boundaryCycles.getLast h⌉) := by
  have hgetD : boundaryCycles.getLast? = some (boundaryCycles.getLast h) :=
    List.getLast?_eq_getLast _ h
  constructor
  · intro h0
    simp [scalingCores, List.getLastD_eq_getLast?, hgetD, h0]
  · intro hne
    have hmem := List.getLast_mem h
    have hpos : 0 < boundaryCycles.getLast h := lt_of_le_of_ne (hc _ hmem) (Ne.symm hne)
    refine ⟨by simp [scalingCores, List.getLastD_eq_getLast?, hgetD, hne], ?_⟩
    have hsum : boundaryCycles.getLast h ≤ boundaryCycles.sum :=
      List.single_le_sum hc _ hmem
    have hX : boundaryCycles.getLast h ≤ max T_OL (T_nOL + boundaryCycles.sum) :=
      le_trans (by linarith) (le_max_right _ _)
    have h1 : (1 : ℚ) ≤ max T_OL (T_nOL + boundaryCycles.sum) / boundaryCycles.getLast h :=
      (one_le_div hpos).mpr hX
    exact Int.one_le_ceil_iff.mpr (lt_of_lt_of_le zero_lt_one h1)

/-- C2 witness: concrete saturation computation for `T_OL = 4`, `T_nOL = 2`
and boundary cycles `[2, 3]`. -/
theorem scalingCores_spec_witness :
    (([2, 3] : List ℚ) ≠ [] ∧ 0 ≤ (4 : ℚ) ∧ 0 ≤ (2 : ℚ) ∧
      (∀ c ∈ ([2, 3] : List ℚ), 0 ≤ c) ∧ ([2, 3] : List ℚ).getLast (by decide) ≠ 0) ∧
    (scalingCores 4 2 [2, 3] =
        some ⌈max (4 : ℚ) (2 + ([2, 3] : List ℚ).sum) / ([2, 3] : List ℚ).getLast (by decide)⌉ ∧
      1 ≤ ⌈max (4 : ℚ) (2 + ([2, 3] : List ℚ).sum) / ([2, 3] : List ℚ).getLast (by decide)⌉) :=
  ⟨⟨by decide, by decide, by decide, by decide, by decide⟩,
    (scalingCores_spec 4 2 [2, 3] (by decide) (by decide) (by decide) (by decide)).2 (by decide)⟩

/-- C3 counterexample: with two arrays of 60 bytes each and a largest cache
of 100 bytes the summed working set (120 bytes) is not below the cache size,
yet the code still prepends the full-iteration-space warm-up pass, because
its guard compares only the largest single array size. -/
theorem usesFullWarmup_not_sum_guard :
    usesFullWarmup [60, 60] [100] = true ∧ ¬ (([60, 60] : List ℕ).sum < pyMax [100]) := by
  decide

/-- C3 (amended): the full iteration space is fed to the simulator as an
extra warm-up pass iff the kernel's largest single array size is smaller
than the largest cache size — equivalently, iff every array individually is
smaller than the largest cache size. -/
theorem usesFullWarmup_iff_max_array_lt (arraySizes cacheSizes : List ℕ)
    (h : arraySizes ≠ []) :
    usesFullWarmup arraySizes cacheSizes = true ↔
      ∀ a ∈ arraySizes, a < pyMax cacheSizes := by
  rw [usesFullWarmup, decide_eq_true_iff]
  exact pyMax_lt_iff h _

/-- C3 witness: a kernel with arrays of 30 and 60 bytes against a largest
cache of 100 bytes. -/
theorem usesFullWarmup_iff_witness :
    (([30, 60] : List ℕ) ≠ []) ∧
    (usesFullWarmup [30, 60] [100] = true ↔ ∀ a ∈ ([30, 60] : List ℕ), a < pyMax [100]) :=
  ⟨by decide, usesFullWarmup_iff_max_array_lt [30, 60] [100] (by decide)⟩

/-- C5: for a hierarchy level with a declared fixed cycles-per-cacheline
value, the derived cycles equal exactly (miss lines + evict lines) times
that value, the recorded bandwidth is `none`, and the result does not depend
on the bandwidth lookup at all. -/
theorem levelCycles_fixed_cost (elementSize clock epc : ℚ)
    (bw bw2 : ℕ → ℕ → ℕ → ℕ → ℚ) (cacheLevel : ℕ) (info : HierLevelInfo)
    (r : CacheRecord) (cc : ℚ) (hcc : info.cyclesPerCL = some cc) :
    levelCycles elementSize clock epc bw cacheLevel info r =
      (((r.totalLinesMisses : ℚ) + (r.totalLinesEvicts : ℚ)) * cc, none) ∧
    levelCycles elementSize clock epc bw cacheLevel info r =
      levelCycles elementSize clock epc bw2 cacheLevel info r := by
  simp [levelCycles, hcc]

/-- C5 witness: a fixed-cost level (2 cy/CL) with 3 miss lines and 1 evict
line, compared under two different bandwidth lookup functions. -/
theorem levelCycles_fixed_cost_witness :
    ((⟨"L1", some 2, none⟩ : HierLevelInfo).cyclesPerCL = some 2) ∧
    (levelCycles 8 3 8 (fun _ _ _ _ => 5) 0 ⟨"L1", some 2, none⟩
        ⟨0, "L1", 0, 0, 0, 3, 0, 1, none⟩ =
      ((((3 : ℕ) : ℚ) + ((1 : ℕ) : ℚ)) * 2, none) ∧
    levelCycles 8 3 8 (fun _ _ _ _ => 5) 0 ⟨"L1", some 2, none⟩
        ⟨0, "L1", 0, 0, 0, 3, 0, 1, none⟩ =
      levelCycles 8 3 8 (fun _ _ _ _ => 7) 0 ⟨"L1", some 2, none⟩
        ⟨0, "L1", 0, 0, 0, 3, 0, 1, none⟩) :=
  ⟨rfl, levelCycles_fixed_cost 8 3 8 (fun _ _ _ _ => 5) (fun _ _ _ _ => 7) 0
    ⟨"L1", some 2, none⟩ ⟨0, "L1", 0, 0, 0, 3, 0, 1, none⟩ 2 rfl⟩

/-- C10: the unit conversions of the data analysis and of the CPU analysis
return equal results on every input whose unit is one of the four supported
unit strings — the two implementations are extensionally equivalent. -/
theorem conv_cy_equiv (clock : ℚ) (elementSize cachelineSize : ℕ) (flopsPerIt : ℚ)
    (cy_cl : ℚ) (unit : String)
    (_hu : unit = "It/s" ∨ unit = "cy/CL" ∨ unit = "cy/It" ∨ unit = "FLOP/s") :
    ECMData_conv_cy clock elementSize cachelineSize flopsPerIt cy_cl unit =
      ECMCPU_conv_cy clock elementSize cachelineSize flopsPerIt cy_cl unit := rfl

/-- C10 witness: both conversions at clock 1, element size 8, cacheline 64,
2 flops per iteration, 3 cy/CL, in unit `cy/It`. -/
theorem conv_cy_equiv_witness :
    ("cy/It" = "It/s" ∨ "cy/It" = "cy/CL" ∨ "cy/It" = "cy/It" ∨ "cy/It" = "FLOP/s") ∧
    ECMData_conv_cy 1 8 64 2 3 "cy/It" = ECMCPU_conv_cy 1 8 64 2 3 "cy/It" :=
  ⟨Or.inr (Or.inr (Or.inl rfl)),
    conv_cy_equiv 1 8 64 2 3 "cy/It" (Or.inr (Or.inr (Or.inl rfl)))⟩

/-- C6: for a machine with `n` ordered hierarchy levels and one statistics
entry per level, the cache-traffic report contains exactly `n - 1` boundary
records (the last level never produces its own record), and the eviction
line count of the record at index `i` is the store line count the simulator
reports for level `i + 1`. -/
theorem buildRecords_length_and_evicts (hierarchy : List String) (stats : List LevelStats)
    (i : ℕ) (hlen : stats.length = hierarchy.length)
    (hi : i < (buildRecords hierarchy stats).length) :
    (buildRecords hierarchy stats).length = hierarchy.length - 1 ∧
    i + 1 < stats.length ∧
    ((buildRecords hierarchy stats).get ⟨i, hi⟩).totalLinesEvicts =
      (stats.getD (i + 1) zeroStats).STORE_count := by
  have hlen2 : (buildRecords hierarchy stats).length = hierarchy.length - 1 := by
    simp [buildRecords]
  refine ⟨hlen2, ?_, ?_⟩
  · rw [hlen2] at hi
    omega
  · simp [buildRecords, List.get_eq_getElem, List.getElem_map, List.getElem_dropLast,
      List.getElem_enum]

/-- C6 witness: a three-level hierarchy with three statistics entries,
looking at the boundary record at index 1. -/
theorem buildRecords_length_and_evicts_witness :
    (([⟨0, 0, 0, 0, 0, 7⟩, ⟨0, 0, 0, 0, 0, 8⟩, ⟨0, 0, 0, 0, 0, 9⟩] : List LevelStats).length =
      (["L1", "L2", "MEM"] : List String).length) ∧
    ((buildRecords ["L1", "L2", "MEM"]
        [⟨0, 0, 0, 0, 0, 7⟩, ⟨0, 0, 0, 0, 0, 8⟩, ⟨0, 0, 0, 0, 0, 9⟩]).length =
      (["L1", "L2", "MEM"] : List String).length - 1 ∧
    1 + 1 < ([⟨0, 0, 0, 0, 0, 7⟩, ⟨0, 0, 0, 0, 0, 8⟩,
        ⟨0, 0, 0, 0, 0, 9⟩] : List LevelStats).length ∧
    ((buildRecords ["L1", "L2", "MEM"]
        [⟨0, 0, 0, 0, 0, 7⟩, ⟨0, 0, 0, 0, 0, 8⟩, ⟨0, 0, 0, 0, 0, 9⟩]).get
        ⟨1, by decide⟩).totalLinesEvicts =
      (([⟨0, 0, 0, 0, 0, 7⟩, ⟨0, 0, 0, 0, 0, 8⟩,
        ⟨0, 0, 0, 0, 0, 9⟩] : List LevelStats).getD (1 + 1) zeroStats).STORE_count) :=
  ⟨rfl, buildRecords_length_and_evicts ["L1", "L2", "MEM"]
    [⟨0, 0, 0, 0, 0, 7⟩, ⟨0, 0, 0, 0, 0, 8⟩, ⟨0, 0, 0, 0, 0, 9⟩] 1 rfl (by decide)⟩

/-- Splitting at a separator that does not occur in the list returns the
whole list as the single piece. -/
lemma splitOnChar_of_not_mem (sep : Char) (a : List Char) (h : sep ∉ a) :
    splitOnChar sep a = [a] := by
  induction a with
  | nil => rfl
  | cons c t ih =>
    have hc : ¬ c = sep := fun he => h (he ▸ List.mem_cons_self c t)
    have ht : sep ∉ t := fun hm => h (List.mem_cons_of_mem c hm)
    simp only [splitOnChar, ih ht]
    rw [if_neg hc]

/-- Splitting a list made of a separator-free part, one separator and a
rest yields that part followed by the split of the rest. -/
lemma splitOnChar_append_cons (sep : Char) (a b : List Char) (ha : sep ∉ a) :
    splitOnChar sep (a ++ sep :: b) = a :: splitOnChar sep b := by
  induction a with
  | nil => simp [splitOnChar]
  | cons c t ih =>
    have hc : ¬ c = sep := fun he => ha (he ▸ List.mem_cons_self c t)
    have ht : sep ∉ t := fun hm => ha (List.mem_cons_of_mem c hm)
    simp only [List.cons_append, splitOnChar]
    rw [if_neg hc, List.append_eq, ih ht]

/-- C7: for every hyphenated port cell (two hyphen-free sub-port labels
joined by a hyphen) whose cycles cell holds two space-separated non-empty
values, parsing yields exactly two entries: the stripped first sub-port
label mapped to the first value and the concatenation of both stripped
sub-port labels mapped to the second, for every numeric conversion `pf`;
in particular the cell "1-5" with cycles "2.0 3.0" yields "1" mapped to 2.0
and "15" mapped to 3.0. -/
theorem portCellEntries_pair_split (p1 p2 c1 c2 : List Char) (pf : List Char → ℚ)
    (hp1 : '-' ∉ p1) (hp2 : '-' ∉ p2) (hc1 : ' ' ∉ c1) (hc2 : ' ' ∉ c2)
    (hc1ne : c1 ≠ []) (hc2ne : c2 ≠ []) :
    portCellEntries (String.mk (p1 ++ '-' :: p2)) (String.mk (c1 ++ ' ' :: c2)) pf =
      [(String.mk (trimChars p1), pf c1),
       (String.mk (trimChars p1 ++ trimChars p2), pf c2)] ∧
    portCellEntries "1-5" "2.0 3.0" parseDecimal = [("1", 2), ("15", 3)] := by
  constructor
  · have hcont1 : (p1 ++ '-' :: p2).contains '-' = true := by
      simp [List.contains]
    have hcont2 : (c1 ++ ' ' :: c2).contains ' ' = true := by
      simp [List.contains]
    have hsp : splitOnChar '-' (p1 ++ '-' :: p2) = [p1, p2] := by
      rw [splitOnChar_append_cons _ _ _ hp1, splitOnChar_of_not_mem _ _ hp2]
    have hsc : splitOnChar ' ' (c1 ++ ' ' :: c2) = [c1, c2] := by
      rw [splitOnChar_append_cons _ _ _ hc1, splitOnChar_of_not_mem _ _ hc2]
    simp [portCellEntries, hcont1, hcont2, hsp, hsc, hc1ne, hc2ne]
  · show [("1", parseDecimal "2.0".data), ("15", parseDecimal "3.0".data)] =
      [("1", (2 : ℚ)), ("15", (3 : ℚ))]
    have e2 : digitsToNat ['2'] = 2 := rfl
    have e3 : digitsToNat ['3'] = 3 := rfl
    have e0 : digitsToNat ['0'] = 0 := rfl
    have h20 : parseDecimal "2.0".data = 2 := by
      show ((digitsToNat ['2'] : ℚ) + (digitsToNat ['0'] : ℚ) / (10 ^ 1) = 2)
      rw [e2, e0]
      norm_num
    have h30 : parseDecimal "3.0".data = 3 := by
      show ((digitsToNat ['3'] : ℚ) + (digitsToNat ['0'] : ℚ) / (10 ^ 1) = 3)
      rw [e3, e0]
      norm_num
    rw [h20, h30]

/-- C7 witness: the general split at the concrete cell "1-5" (as the
character lists of its two sub-port labels) with cycles "2.0 3.0", under
the decimal conversion. -/
theorem portCellEntries_pair_split_witness :
    ('-' ∉ (['1'] : List Char) ∧ '-' ∉ (['5'] : List Char) ∧
      ' ' ∉ (['2', '.', '0'] : List Char) ∧ ' ' ∉ (['3', '.', '0'] : List Char) ∧
      (['2', '.', '0'] : List Char) ≠ [] ∧ (['3', '.', '0'] : List Char) ≠ []) ∧
    (portCellEntries (String.mk (['1'] ++ '-' :: ['5']))
        (String.mk (['2', '.', '0'] ++ ' ' :: ['3', '.', '0'])) parseDecimal =
      [(String.mk (trimChars ['1']), parseDecimal ['2', '.', '0']),
       (String.mk (trimChars ['1'] ++ trimChars ['5']), parseDecimal ['3', '.', '0'])] ∧
    portCellEntries "1-5" "2.0 3.0" parseDecimal = [("1", 2), ("15", 3)]) :=
  ⟨⟨by decide, by decide, by decide, by decide, by decide, by decide⟩,
    portCellEntries_pair_split ['1'] ['5'] ['2', '.', '0'] ['3', '.', '0'] parseDecimal
      (by decide) (by decide) (by decide) (by decide) (by decide) (by decide)⟩

/-- C8: `T_nOL` is the maximum port cycle value over the non-overlapping
port set (it dominates every such port's value and is itself one of them),
and `T_OL` is the latency when the latency preference is set, else the block
throughput when that exceeds `T_nOL`, else the maximum over the overlapping
port set. -/
theorem computeT_spec (pc : List (String × ℚ)) (ov nov : List String)
    (clThroughput clLatency : ℚ) (latencyFlag : Bool) (k : String) (v : ℚ)
    (hmem : (k, v) ∈ pc) (hk : nov.contains k = true) :
    v ≤ (computeT pc ov nov clThroughput clLatency latencyFlag).1 ∧
    (computeT pc ov nov clThroughput clLatency latencyFlag).1 ∈ portVals pc nov ∧
    (computeT pc ov nov clThroughput clLatency latencyFlag).2 =
      (if latencyFlag then clLatency
       else if (computeT pc ov nov clThroughput clLatency latencyFlag).1 < clThroughput
       then clThroughput
       else pyMax (portVals pc ov)) := by
  have hvmem : v ∈ portVals pc nov := by
    simp only [portVals, List.mem_map, List.mem_filter]
    exact ⟨(k, v), ⟨hmem, hk⟩, rfl⟩
  have hne : portVals pc nov ≠ [] := by
    intro he
    rw [he] at hvmem
    cases hvmem
  exact ⟨le_pyMax hvmem, pyMax_mem hne, rfl⟩

/-- C8 witness: three ports, overlapping set {0, 1}, non-overlapping set
{2}, throughput 4, latency 6, latency preference off. -/
theorem computeT_spec_witness :
    (("2", (1 : ℚ)) ∈ ([("0", 2), ("1", 3), ("2", 1)] : List (String × ℚ)) ∧
      (["2"] : List String).contains "2" = true) ∧
    ((1 : ℚ) ≤ (computeT [("0", 2), ("1", 3), ("2", 1)] ["0", "1"] ["2"] 4 6 false).1 ∧
     (computeT [("0", 2), ("1", 3), ("2", 1)] ["0", "1"] ["2"] 4 6 false).1 ∈
       portVals [("0", 2), ("1", 3), ("2", 1)] ["2"] ∧
     (computeT [("0", 2), ("1", 3), ("2", 1)] ["0", "1"] ["2"] 4 6 false).2 =
       (if false then (6 : ℚ)
        else if (computeT [("0", 2), ("1", 3), ("2", 1)] ["0", "1"] ["2"] 4 6 false).1 < 4
        then 4
        else pyMax (portVals [("0", 2), ("1", 3), ("2", 1)] ["0", "1"]))) :=
  ⟨⟨by decide, by decide⟩,
    computeT_spec [("0", 2), ("1", 3), ("2", 1)] ["0", "1"] ["2"] 4 6 false "2" 1
      (by decide) (by decide)⟩

/-- C9: when no line of the analyzer's throughput-mode output matches the
block-throughput pattern, parsing yields the parse-failure error, never a
silently defaulted value. -/
theorem parseBlockThroughput_error_on_missing (out : List String)
    (h : ∀ l ∈ out, throughputCapture l = none) :
    parseBlockThroughput out =
      Except.error "Could not find Block Throughput in IACA output." := by
  have hnone : out.findSome? throughputCapture = none := List.findSome?_eq_none_iff.mpr h
  simp [parseBlockThroughput, hnone]

/-- C9 witness: an output without any block-throughput line. -/
theorem parseBlockThroughput_error_witness :
    (∀ l ∈ (["Ports:", "Total Num Of Uops: 5"] : List String), throughputCapture l = none) ∧
    parseBlockThroughput ["Ports:", "Total Num Of Uops: 5"] =
      Except.error "Could not find Block Throughput in IACA output." :=
  ⟨by decide, parseBlockThroughput_error_on_missing _ (by decide)⟩

/-- The shift pair `int(x) >> b << b` computed by the source equals clearing
the low bits: for a non-negative offset it is `x - x % 2 ^ b`. -/
lemma clFloor_eq (x : ℤ) (b : ℕ) (hx : 0 ≤ x) : clFloor x b = x - x % (2 ^ b) := by
  obtain ⟨n, rfl⟩ := Int.eq_ofNat_of_zero_le hx
  have hshift : (n >>> b) <<< b = n - n % 2 ^ b := by
    rw [Nat.shiftRight_eq_div_pow, Nat.shiftLeft_eq, Nat.mul_comm]
    have := Nat.div_add_mod n (2 ^ b)
    omega
  rw [clFloor, Int.toNat_ofNat, hshift]
  have hmodle : n % 2 ^ b ≤ n := Nat.mod_le n (2 ^ b)
  push_cast [Nat.cast_sub hmodle]
  ring

/-- C4 counterexample: a kernel whose accesses advance linearly by one
8-byte element from the unaligned base offset 1 (iteration addresses 1, 9,
17, ...), with a 64-byte cacheline (a multiple of the element size): after
the re-alignment step the first benchmarked iteration's address is 1 modulo
the cacheline size, not 0. -/
theorem benchFirstOffset_unaligned_base :
    ((8 : ℤ) ∣ 2 ^ 6) ∧ benchFirstOffset 1 8 5 6 % 2 ^ 6 ≠ 0 := by
  refine ⟨⟨8, by norm_num⟩, ?_⟩
  decide

/-- C4 (amended): for a kernel whose per-iteration addresses increase
linearly by one element size from a base address that is itself a multiple
of the element size, and a cacheline size (2 ^ b bytes) that is a multiple
of the element size, the first benchmarked iteration's address after the
warm-up-count re-alignment is 0 modulo the cacheline size. -/
theorem benchFirstOffset_aligned (base es w : ℤ) (b : ℕ)
    (hbase : 0 ≤ base) (hes : 0 < es) (hw : 0 ≤ w)
    (hdvd_base : es ∣ base) (hdvd_cl : es ∣ (2 ^ b : ℤ)) :
    benchFirstOffset base es w b % 2 ^ b = 0 := by
  have hfo_nonneg : 0 ≤ firstOffset base es w := by
    have hwe : 0 ≤ w * es := mul_nonneg hw (le_of_lt hes)
    rw [firstOffset]
    linarith
  have hcl : clFloor (firstOffset base es w) b =
      firstOffset base es w - firstOffset base es w % 2 ^ b :=
    clFloor_eq _ b hfo_nonneg
  have hdvd_fo : es ∣ firstOffset base es w := by
    rw [firstOffset]
    exact dvd_add hdvd_base (dvd_mul_left es w)
  have hdvd_mod : es ∣ firstOffset base es w % 2 ^ b := by
    rw [Int.emod_def]
    exact dvd_sub hdvd_fo (hdvd_cl.mul_right _)
  have hdiff : alignDiff base es w b = firstOffset base es w % 2 ^ b := by
    rw [alignDiff, hcl]
    ring
  have hfdiv : (firstOffset base es w % 2 ^ b).fdiv es =
      firstOffset base es w % 2 ^ b / es :=
    Int.fdiv_eq_ediv _ (le_of_lt hes)
  have hcancel : firstOffset base es w % 2 ^ b / es * es = firstOffset base es w % 2 ^ b :=
    Int.ediv_mul_cancel hdvd_mod
  have hkey : benchFirstOffset base es w b =
      firstOffset base es w - firstOffset base es w % 2 ^ b := by
    rw [benchFirstOffset, alignedWarmup, hdiff, hfdiv]
    show base + (w - firstOffset base es w % 2 ^ b / es) * es = _
    calc base + (w - firstOffset base es w % 2 ^ b / es) * es
        = base + w * es - firstOffset base es w % 2 ^ b / es * es := by ring
      _ = firstOffset base es w - firstOffset base es w % 2 ^ b := by
          rw [hcancel, firstOffset]
  have hmul : firstOffset base es w - firstOffset base es w % 2 ^ b =
      2 ^ b * (firstOffset base es w / 2 ^ b) := by
    rw [Int.emod_def]
    ring
  rw [hkey, hmul]
  exact Int.mul_emod_right _ _

/-- C4 witness: base offset 8 (one element into the array), element size 8,
warm-up count 5, 64-byte cachelines. -/
theorem benchFirstOffset_aligned_witness :
    (0 ≤ (8 : ℤ) ∧ 0 < (8 : ℤ) ∧ 0 ≤ (5 : ℤ) ∧ (8 : ℤ) ∣ 8 ∧ (8 : ℤ) ∣ 2 ^ 6) ∧
    benchFirstOffset 8 8 5 6 % 2 ^ 6 = 0 :=
  ⟨⟨by decide, by decide, by decide, ⟨1, by norm_num⟩, ⟨8, by norm_num⟩⟩,
    benchFirstOffset_aligned 8 8 5 6 (by decide) (by decide) (by decide)
      ⟨1, by norm_num⟩ ⟨8, by norm_num⟩⟩
